import Mathlib

/-!
Verification of the kioto chat client's TUI core (src/tui/ui.rs).

The Rust source is shallowly embedded below.  Text is modelled as
`List Char` (the source operates on ASCII content; Rust byte lengths and
char counts coincide there).  Unsigned machine integers (`u16`, `usize`)
are modelled as `Nat`, and an arithmetic underflow of an unsigned
subtraction is made explicit with `Option` (`none` standing for the
overflow panic).  The buffer component `StatefulArea` wraps a `TextArea`
from the external tui-textarea crate; that crate is not part of the
repository, so its operations (`insert_char`, `insert_newline`,
`delete_char`, `delete_newline`, `delete_word`, `delete_line_by_head`,
`insert_str`, `move_cursor End`, `cursor`, `lines`) are modelled from the
crate's documented behaviour: a buffer is a nonempty list of lines plus a
(row, column) cursor, and word boundaries are character-kind changes
(whitespace / punctuation / word characters).
-/

/-- Whitespace test matching the whitespace class used by the source's
regular expressions on ASCII text. -/
def isWS (c : Char) : Bool :=
  c = ' ' || c = '\t' || c = '\n' || c = '\r' || c = '\x0b' || c = '\x0c'

/-- Character kinds used by tui-textarea word motions: whitespace,
ASCII punctuation, and everything else (word characters). -/
inductive CharKind where
  | space
  | punct
  | word
  deriving DecidableEq, Repr

/-- Kind of a single character (tui-textarea's CharKind::new). -/
def charKind (c : Char) : CharKind :=
  if isWS c then CharKind.space
  else if c.toNat < 128 ∧ (('!' ≤ c ∧ c ≤ '/') ∨ (':' ≤ c ∧ c ≤ '@') ∨
    ('[' ≤ c ∧ c ≤ '\x60') ∨ ('\x7b' ≤ c ∧ c ≤ '~')) then CharKind.punct
  else CharKind.word

/-- Modelled from the tui-textarea crate: a text buffer is a list of lines
(always nonempty in the crate) and a cursor, `cursor.fst` the row and
`cursor.snd` the column. -/
structure TextArea where
  lines : List (List Char)
  cursor : Nat × Nat
  deriving DecidableEq, Repr

/-- Modelled from the tui-textarea crate: TextArea::default starts with one
empty line and the cursor at the origin. -/
def TextArea.default : TextArea :=
  ⟨[[]], (0, 0)⟩

/-- Modelled from the tui-textarea crate: insert one character at the
cursor. -/
def TextArea.insert_char (t : TextArea) (c : Char) : TextArea :=
  let r := t.cursor.fst
  let cl := t.cursor.snd
  let line := t.lines.getD r []
  { lines := t.lines.set r (line.take cl ++ c :: line.drop cl),
    cursor := (r, cl + 1) }

/-- Modelled from the tui-textarea crate: split the current line at the
cursor, moving the cursor to the head of the new line. -/
def TextArea.insert_newline (t : TextArea) : TextArea :=
  let r := t.cursor.fst
  let cl := t.cursor.snd
  let line := t.lines.getD r []
  { lines := t.lines.take r ++ line.take cl :: line.drop cl :: t.lines.drop (r + 1),
    cursor := (r + 1, 0) }

/-- Modelled from the tui-textarea crate: delete the newline before the
current line, joining it into the previous line; a no-op on row zero. -/
def TextArea.delete_newline (t : TextArea) : TextArea :=
  let r := t.cursor.fst
  if r = 0 then t
  else
    let prev := t.lines.getD (r - 1) []
    let cur := t.lines.getD r []
    { lines := t.lines.take (r - 1) ++ (prev ++ cur) :: t.lines.drop (r + 1),
      cursor := (r - 1, prev.length) }

/-- Modelled from the tui-textarea crate: delete the character before the
cursor; at the head of a line this deletes the newline instead.  The
returned flag tells whether the buffer was modified. -/
def TextArea.delete_char (t : TextArea) : TextArea × Bool :=
  let r := t.cursor.fst
  let cl := t.cursor.snd
  if cl = 0 then
    if r = 0 then (t, false) else (t.delete_newline, true)
  else
    let line := t.lines.getD r []
    ({ lines := t.lines.set r (line.take (cl - 1) ++ line.drop cl),
       cursor := (r, cl - 1) }, true)

/-- Modelled from the tui-textarea crate: CursorMove::End puts the cursor
at the end of the current line. -/
def TextArea.move_cursor_end (t : TextArea) : TextArea :=
  { t with cursor := (t.cursor.fst, (t.lines.getD t.cursor.fst []).length) }

/-- Modelled from the tui-textarea crate: delete from the head of the
current line to the cursor; with the cursor already at the head this falls
back to deleting the newline before the line. -/
def TextArea.delete_line_by_head (t : TextArea) : TextArea :=
  let r := t.cursor.fst
  let cl := t.cursor.snd
  if cl = 0 then t.delete_newline
  else
    let line := t.lines.getD r []
    { lines := t.lines.set r (line.drop cl), cursor := (r, 0) }

/-- Backward scan of tui-textarea's find_word_start_backward: walk left
from the cursor, skipping a whitespace run, then a run of uniform kind;
`curCol` is the column of the character currently held in `cur`. -/
def findWordGo : CharKind → List Char → Nat → Option Nat
  | cur, [], _ => if cur = CharKind.space then none else some 0
  | cur, c :: tl, curCol =>
    let nk := charKind c
    if cur ≠ CharKind.space ∧ nk ≠ cur then some curCol
    else findWordGo nk tl (curCol - 1)

/-- Modelled from the tui-textarea crate: column where the word before
column `col` of `line` starts, or `none` when only whitespace precedes the
cursor. -/
def findWordStartBackward (line : List Char) (col : Nat) : Option Nat :=
  match (line.take col).reverse with
  | [] => none
  | c :: tl => findWordGo (charKind c) tl (col - 1)

/-- Modelled from the tui-textarea crate: delete one word before the
cursor (falling back to deleting to the line head, or the newline, when no
word start is found). -/
def TextArea.delete_word (t : TextArea) : TextArea :=
  let r := t.cursor.fst
  let cl := t.cursor.snd
  let line := t.lines.getD r []
  match findWordStartBackward line cl with
  | some col =>
    { lines := t.lines.set r (line.take col ++ line.drop cl), cursor := (r, col) }
  | none =>
    if cl = 0 then t.delete_newline
    else { lines := t.lines.set r (line.drop cl), cursor := (r, 0) }

/-- Modelled from the tui-textarea crate: insert a newline-free string at
the cursor. -/
def TextArea.insert_str (t : TextArea) (cs : List Char) : TextArea :=
  let r := t.cursor.fst
  let cl := t.cursor.snd
  let line := t.lines.getD r []
  { lines := t.lines.set r (line.take cl ++ cs ++ line.drop cl),
    cursor := (r, cl + cs.length) }

/-- Input events routed to the edit buffer: a typed character, backspace,
or the enter key. -/
inductive Input where
  | char (c : Char)
  | backspace
  | enter
  deriving DecidableEq, Repr

/-- Modelled from the tui-textarea crate: apply one input event, returning
the new buffer and whether the buffer was modified. -/
def TextArea.input_without_shortcuts (t : TextArea) : Input → TextArea × Bool
  | Input.char c => (t.insert_char c, true)
  | Input.backspace => t.delete_char
  | Input.enter => (t.insert_newline, true)

/-- Sum of the line lengths of a buffer: the total character count
(newlines not counted). -/
def totalChars (t : TextArea) : Nat :=
  (t.lines.map List.length).sum

/-- StatefulArea from src/tui/ui.rs: the tui-textarea buffer plus the
reported extra height and the width written back by the renderer. -/
structure StatefulArea where
  textarea : TextArea
  height : Nat
  width : Nat
  deriving DecidableEq, Repr

/-- MAX_AREA_HEIGHT from src/tui/ui.rs. -/
def StatefulArea.MAX_AREA_HEIGHT : Nat := 20

/-- StatefulArea::new from src/tui/ui.rs (style settings dropped; height
and width start at zero). -/
def StatefulArea.new : StatefulArea :=
  { textarea := TextArea.default, height := 0, width := 0 }

/-- Column of the first match of a non-whitespace run in `rl`, as computed
by the source's reversed-line regular expression search. -/
def capStart (rl : List Char) : Nat :=
  (rl.takeWhile isWS).length

/-- Characters of the first non-whitespace run of `rl` (the regex capture
of the source). -/
def capMatch (rl : List Char) : List Char :=
  (rl.dropWhile isWS).takeWhile (fun c => ! isWS c)

/-- Whether `rl` holds any non-whitespace character, i.e. whether the
source's regex search finds a match. -/
def hasCap (rl : List Char) : Bool :=
  rl.any (fun c => ! isWS c)

/-- StatefulArea::move_last_word_to_new_line from src/tui/ui.rs.  The u16
subtraction `width - 6` is checked: `none` models the unsigned-underflow
panic when `width < 6`. -/
def StatefulArea.move_last_word_to_new_line (s : StatefulArea) : Option StatefulArea :=
  let line := s.textarea.lines.getD s.textarea.cursor.fst []
  if s.width < 6 then none
  else if line.length ≥ s.width - 6 then
    let rlines := line.reverse
    let ta :=
      if hasCap rlines then
        if capStart rlines = 0 then
          let t1 := s.textarea.delete_word
          let t2 := t1.insert_newline
          t2.insert_str (capMatch rlines).reverse
        else (s.textarea.delete_char).fst
      else s.textarea
    some { textarea := ta,
           height :=
             if s.height ≤ StatefulArea.MAX_AREA_HEIGHT ∧ ¬ line.getLast? = some ' ' then
               s.height + 1
             else s.height,
           width := s.width }
  else some s

/-- StatefulArea::on_input_update from src/tui/ui.rs: apply the input and,
when it modified the buffer, run the reflow check. -/
def StatefulArea.on_input_update (s : StatefulArea) (i : Input) : Option StatefulArea :=
  let p := s.textarea.input_without_shortcuts i
  let s1 := { s with textarea := p.fst }
  if p.snd then s1.move_last_word_to_new_line else some s1

/-- Fold of on_input_update over a list of input events. -/
def processInputs : List Input → StatefulArea → Option StatefulArea
  | [], s => some s
  | i :: is, s => (s.on_input_update i).bind (processInputs is)

/-- Leading and trailing whitespace removed, as Rust's str::trim. -/
def strTrim (cs : List Char) : List Char :=
  ((cs.dropWhile isWS).reverse.dropWhile isWS).reverse

/-- StatefulArea::get_buffer from src/tui/ui.rs: append a newline to every
line that is nonempty and whose content differs from the last line's
content, concatenate, and return the result unless its trim is empty. -/
def StatefulArea.get_buffer (s : StatefulArea) : Option (List Char) :=
  let ls := s.textarea.lines
  let lastLine := ls.getLast?.getD []
  let joined := (ls.map (fun l => if ¬ l.isEmpty ∧ ¬ l = lastLine then l ++ ['\n'] else l)).flatten
  if (strTrim joined).isEmpty then none else some joined

/-- One iteration of StatefulArea::clear_buffer's loop from src/tui/ui.rs:
move to the end of the line, delete the line by head, delete the
newline. -/
def clearStep (t : TextArea) : TextArea :=
  ((t.move_cursor_end).delete_line_by_head).delete_newline

/-- StatefulArea::clear_buffer from src/tui/ui.rs: run the clearing step
once per line of the buffer. -/
def StatefulArea.clear_buffer (s : StatefulArea) : StatefulArea :=
  { s with textarea := clearStep^[s.textarea.lines.length] s.textarea }

/-- StatefulArea::get_text from src/tui/ui.rs: read the buffer, clear it,
return what was read. -/
def StatefulArea.get_text (s : StatefulArea) : Option (List Char) × StatefulArea :=
  (s.get_buffer, s.clear_buffer)

/-- ListState of ratatui as used by the source: just the selected index
(the source only calls select and selected on it). -/
structure ListState where
  selected : Option Nat
  deriving DecidableEq, Repr

/-- ListState::select of ratatui. -/
def ListState.select (_ : ListState) (v : Option Nat) : ListState :=
  { selected := v }

/-- StatefulList from src/tui/ui.rs. -/
structure StatefulList (α : Type) where
  state : ListState
  items : List α
  is_highlighted : Bool

/-- StatefulList::default from src/tui/ui.rs. -/
def StatefulList.default {α : Type} : StatefulList α :=
  { state := { selected := none }, items := [], is_highlighted := false }

/-- StatefulList::select_last from src/tui/ui.rs: select one past the last
valid index. -/
def StatefulList.select_last {α : Type} (s : StatefulList α) : StatefulList α :=
  { s with state := s.state.select (some s.items.length) }

/-- StatefulList::next from src/tui/ui.rs. -/
def StatefulList.next {α : Type} (s : StatefulList α) : StatefulList α :=
  let len := s.items.length
  if len ≠ 0 then
    let i :=
      match s.state.selected with
      | some i => if i ≥ len - 1 then i else i + 1
      | none => 0
    { s with state := s.state.select (some i) }
  else s

/-- StatefulList::previous from src/tui/ui.rs. -/
def StatefulList.previous {α : Type} (s : StatefulList α) : StatefulList α :=
  if ¬ s.items.isEmpty then
    let i :=
      match s.state.selected with
      | some i => if i = 0 then i else i - 1
      | none => 0
    { s with state := s.state.select (some i) }
  else s

/-- Timer from src/tui/ui.rs. -/
structure Timer where
  treshold_time : Nat
  counter : Nat
  start : Bool
  deriving DecidableEq, Repr

/-- Timer::new from src/tui/ui.rs. -/
def Timer.new (treshold_time : Nat) : Timer :=
  { treshold_time := treshold_time, counter := 0, start := false }

/-- Timer::unlock from src/tui/ui.rs. -/
def Timer.unlock (t : Timer) : Timer :=
  { t with start := true }

/-- Timer::lock from src/tui/ui.rs. -/
def Timer.lock (t : Timer) : Timer :=
  { t with start := false }

/-- Timer::dec from src/tui/ui.rs.  The usize decrement is checked:
`none` models the unsigned-underflow panic, reachable when the reloaded
counter is still zero (threshold zero). -/
def Timer.dec (t : Timer) : Option Timer :=
  if t.start then
    let c := if t.counter ≤ 0 then t.treshold_time else t.counter
    if c = 0 then none else some { t with counter := c - 1 }
  else some t

/-- Timer::has_time_passed from src/tui/ui.rs: true exactly when the
counter is zero. -/
def Timer.has_time_passed (t : Timer) : Bool :=
  if t.counter > 0 then false else true

/-- Iterated Timer::dec: tick the timer `k` times. -/
def decN (k : Nat) (t : Timer) : Option Timer :=
  match k with
  | 0 => some t
  | k + 1 => (decN k t).bind Timer.dec

/-- Public Timer calls available at its interface. -/
inductive TimerOp where
  | unlock
  | lock
  | dec
  deriving DecidableEq, Repr

/-- Apply one public Timer call. -/
def applyTimerOp (t : Timer) : TimerOp → Option Timer
  | TimerOp.unlock => some t.unlock
  | TimerOp.lock => some t.lock
  | TimerOp.dec => t.dec

/-- Apply a sequence of public Timer calls. -/
def applyTimerOps : List TimerOp → Timer → Option Timer
  | [], t => some t
  | op :: ops, t => (applyTimerOp t op).bind (applyTimerOps ops)

/-- PopupState from src/tui/ui.rs. -/
inductive PopupState where
  | help
  | list
  | banned (user : String)
  | joinedLeft (user : String) (joined_or_left : Bool)
  | none
  deriving DecidableEq, Repr

/-- ChatApp state as used by Tui::render in src/tui/ui.rs (style and
client fields reduced to the room id; message items abstract). -/
structure ChatApp (μ : Type) where
  msg_area : StatefulArea
  messages : StatefulList μ
  users : List String
  current_popup : PopupState
  popup_display_timer : Timer
  room_id : String

/-- State effect on the popup of the match in Tui::render: the time-bound
popups fall back to None once the timer has passed; the others are left
untouched. -/
def renderPopupUpdate (p : PopupState) (tm : Timer) : PopupState :=
  match p with
  | PopupState.banned user =>
    if tm.has_time_passed then PopupState.none else PopupState.banned user
  | PopupState.joinedLeft user j =>
    if tm.has_time_passed then PopupState.none else PopupState.joinedLeft user j
  | q => q

/-- State effect of Tui::render from src/tui/ui.rs: the renderer writes
the layout width into the message area and applies the popup update; the
frame drawing itself produces no further state change. -/
def renderUpdate {μ : Type} (app : ChatApp μ) (frameWidth : Nat) : ChatApp μ :=
  { app with
    msg_area := { app.msg_area with width := frameWidth },
    current_popup := renderPopupUpdate app.current_popup app.popup_display_timer }

/-- Modelled from the spec: the explicit user command handling that
toggles the Help popup lives in chat_app.rs, which is not among the
provided sources; per the spec it toggles Help directly to and from
None. -/
def toggleHelp (p : PopupState) : PopupState :=
  if p = PopupState.help then PopupState.none else PopupState.help

/-- Modelled from the spec: the explicit user command handling that
toggles the user-list popup lives in chat_app.rs, which is not among the
provided sources; per the spec it toggles the user list directly to and
from None. -/
def toggleUserList (p : PopupState) : PopupState :=
  if p = PopupState.list then PopupState.none else PopupState.list

/-! Shared list helpers used by the proofs below. -/

/-- Short name for turning a string literal into the character-list text
representation used by the model. -/
def toL (s : String) : List Char := s.toList

theorem getD_append_self {α : Type} (M : List α) (t : α) (rest : List α) (d : α) :
    (M ++ t :: rest).getD M.length d = t := by
  induction M with
  | nil => rfl
  | cons a tl ih => simp only [List.cons_append, List.length_cons, List.getD_cons_succ, ih]

theorem set_append_self {α : Type} (M : List α) (t : α) (rest : List α) (v : α) :
    (M ++ t :: rest).set M.length v = M ++ v :: rest := by
  induction M with
  | nil => rfl
  | cons a tl ih => simp only [List.cons_append, List.length_cons, List.set_cons_succ, ih]

theorem takeWhile_append_of_all {α : Type} (q : α → Bool) (l₁ l₂ : List α)
    (h : ∀ c ∈ l₁, q c = true) :
    (l₁ ++ l₂).takeWhile q = l₁ ++ l₂.takeWhile q := by
  induction l₁ with
  | nil => simp
  | cons a tl ih => simp_all [List.takeWhile_cons]

/-! Timer lemmas (claims C3 and C10). -/

theorem succ_mod_eq (T a : Nat) (hT : 1 ≤ T) :
    (a + 1) % T = if a % T + 1 = T then 0 else a % T + 1 := by
  have ha : a % T < T := Nat.mod_lt _ hT
  by_cases h1 : T = 1
  · subst h1; simp [Nat.mod_one]
  · have h2 : 1 % T = 1 := Nat.mod_eq_of_lt (by omega)
    rw [Nat.add_mod, h2]
    by_cases h : a % T + 1 = T
    · rw [if_pos h, h, Nat.mod_self]
    · rw [if_neg h, Nat.mod_eq_of_lt (by omega)]

theorem decN_unlock_eq (T : Nat) (hT : 1 ≤ T) :
    ∀ k, 1 ≤ k → decN k ((Timer.new T).unlock) =
      some { treshold_time := T, counter := T - 1 - (k - 1) % T, start := true } := by
  intro k
  induction k with
  | zero => intro h; exact absurd h (by omega)
  | succ k ih =>
    intro _
    by_cases hk : k = 0
    · subst hk
      show (decN 0 _).bind Timer.dec = _
      simp [decN, Timer.new, Timer.unlock, Timer.dec, Nat.mod_one]
      omega
    · have hk1 : 1 ≤ k := by omega
      show (decN k _).bind Timer.dec = _
      rw [ih hk1]
      have hr : (k - 1) % T < T := Nat.mod_lt _ hT
      have hkk : k - 1 + 1 = k := by omega
      have hsm : k % T = if (k - 1) % T + 1 = T then 0 else (k - 1) % T + 1 := by
        conv_lhs => rw [← hkk]
        exact succ_mod_eq T (k - 1) hT
      simp only [Nat.add_sub_cancel]
      by_cases hc : T - 1 - (k - 1) % T = 0
      · have hc2 : (k - 1) % T + 1 = T := by omega
        rw [hsm, if_pos hc2]
        simp [Timer.dec, Option.bind, hc]
        omega
      · have hc2 : ¬ ((k - 1) % T + 1 = T) := by omega
        rw [hsm, if_neg hc2]
        simp [Timer.dec, Option.bind, hc]
        omega

/-- C3: after unlock, ticking a Timer with threshold T at least once leaves
the counter at T - 1 - ((k-1) mod T); has_time_passed is first true at tick
T-1 (0-indexed) and then exactly at every further multiple of T, so the
repeating cycle is T ticks long, not T+1 as the claim states. -/
theorem C3_timer_schedule_amended (T k : Nat) (hT : 1 ≤ T) (hk : 1 ≤ k) :
    decN k ((Timer.new T).unlock) =
      some { treshold_time := T, counter := T - 1 - (k - 1) % T, start := true } ∧
    ((decN k ((Timer.new T).unlock)).map Timer.has_time_passed = some true ↔ k % T = 0) := by
  have h := decN_unlock_eq T hT k hk
  refine ⟨h, ?_⟩
  rw [h]
  have hr : (k - 1) % T < T := Nat.mod_lt _ hT
  have hkk : k - 1 + 1 = k := by omega
  have hsm : k % T = if (k - 1) % T + 1 = T then 0 else (k - 1) % T + 1 := by
    conv_lhs => rw [← hkk]
    exact succ_mod_eq T (k - 1) hT
  simp only [Option.map_some', Timer.has_time_passed]
  by_cases hc : T - 1 - (k - 1) % T > 0
  · rw [if_pos hc, hsm]
    constructor
    · intro hfalse; exact absurd hfalse (by simp)
    · intro h0
      split at h0 <;> omega
  · rw [if_neg hc, hsm]
    constructor
    · intro _
      split <;> omega
    · intro _; rfl

/-- C3 witness: the amended schedule at threshold 2, tick count 2. -/
theorem C3_timer_schedule_amended_witness :
    decN 2 ((Timer.new 2).unlock) =
      some { treshold_time := 2, counter := 2 - 1 - (2 - 1) % 2, start := true } ∧
    ((decN 2 ((Timer.new 2).unlock)).map Timer.has_time_passed = some true ↔ 2 % 2 = 0) :=
  C3_timer_schedule_amended 2 2 (by omega) (by omega)

/-- C3 counterexample: with threshold 2, the claim places the unique true
reading of has_time_passed at tick 2 (0-indexed) of the first 3 ticks, but
the code yields true after 2 ticks (index 1) and false after 3 ticks
(index 2). -/
theorem C3_timer_schedule_counterexample :
    ((decN 3 ((Timer.new 2).unlock)).map Timer.has_time_passed = some false) ∧
    ((decN 2 ((Timer.new 2).unlock)).map Timer.has_time_passed = some true) := by
  exact ⟨rfl, rfl⟩

theorem timer_ops_invariant (T : Nat) (hT : 1 ≤ T) :
    ∀ (ops : List TimerOp) (t : Timer), t.treshold_time = T → t.counter ≤ T →
      ∃ u, applyTimerOps ops t = some u ∧ u.treshold_time = T ∧ u.counter ≤ T := by
  intro ops
  induction ops with
  | nil => intro t h1 h2; exact ⟨t, rfl, h1, h2⟩
  | cons op tl ih =>
    intro t h1 h2
    cases op with
    | unlock => exact ih t.unlock h1 h2
    | lock => exact ih t.lock h1 h2
    | dec =>
      by_cases hst : t.start
      · by_cases hc : t.counter ≤ 0
        · have hdec : t.dec = some { t with counter := T - 1 } := by
            simp [Timer.dec, hst, hc, h1]
            omega
          have hstep : applyTimerOps (TimerOp.dec :: tl) t =
              applyTimerOps tl { t with counter := T - 1 } := by
            show (t.dec).bind (applyTimerOps tl) = _
            rw [hdec]
            rfl
          rw [hstep]
          exact ih _ h1 (by simp)
        · have hdec : t.dec = some { t with counter := t.counter - 1 } := by
            simp [Timer.dec, hst, hc]
            omega
          have hstep : applyTimerOps (TimerOp.dec :: tl) t =
              applyTimerOps tl { t with counter := t.counter - 1 } := by
            show (t.dec).bind (applyTimerOps tl) = _
            rw [hdec]
            rfl
          rw [hstep]
          exact ih _ h1 (by simp; omega)
      · have hdec : t.dec = some t := by simp [Timer.dec, hst]
        have hstep : applyTimerOps (TimerOp.dec :: tl) t = applyTimerOps tl t := by
          show (t.dec).bind (applyTimerOps tl) = _
          rw [hdec]
          rfl
        rw [hstep]
        exact ih t h1 h2

/-- C10: with any threshold T of at least one, every sequence of public
unlock/lock/dec calls on a fresh Timer succeeds (the decrement never
underflows) and keeps the counter within zero and T; with threshold zero,
the very first dec on a running timer reloads the counter to zero and the
unguarded unsigned decrement underflows. -/
theorem C10_timer_tick_safety :
    (∀ (T : Nat) (ops : List TimerOp), 1 ≤ T →
      ∃ u, applyTimerOps ops (Timer.new T) = some u ∧ u.counter ≤ T) ∧
    applyTimerOps [TimerOp.unlock, TimerOp.dec] (Timer.new 0) = none := by
  constructor
  · intro T ops hT
    obtain ⟨u, h1, _, h3⟩ :=
      timer_ops_invariant T hT ops (Timer.new T) rfl (by simp [Timer.new])
    exact ⟨u, h1, h3⟩
  · rfl

/-- C10 witness: threshold 1, an unlock followed by one tick. -/
theorem C10_timer_tick_safety_witness :
    ∃ u, applyTimerOps [TimerOp.unlock, TimerOp.dec] (Timer.new 1) = some u ∧ u.counter ≤ 1 :=
  C10_timer_tick_safety.1 1 [TimerOp.unlock, TimerOp.dec] (by omega)

/-- C7: on a render tick the time-bound popups Banned and JoinedLeft fall
back to None exactly when the timer has passed, Help, UserList and None
are untouched by the renderer, and the explicit user commands (modelled
from the spec, their handler not being among the sources) toggle Help and
UserList to and from None. -/
theorem C7_popup_dismissal :
    (∀ (user : String) (tm : Timer),
      renderPopupUpdate (PopupState.banned user) tm =
        if tm.has_time_passed then PopupState.none else PopupState.banned user) ∧
    (∀ (user : String) (j : Bool) (tm : Timer),
      renderPopupUpdate (PopupState.joinedLeft user j) tm =
        if tm.has_time_passed then PopupState.none else PopupState.joinedLeft user j) ∧
    (∀ tm : Timer, renderPopupUpdate PopupState.help tm = PopupState.help ∧
      renderPopupUpdate PopupState.list tm = PopupState.list ∧
      renderPopupUpdate PopupState.none tm = PopupState.none) ∧
    (toggleHelp PopupState.help = PopupState.none ∧
      toggleHelp PopupState.none = PopupState.help ∧
      toggleHelp PopupState.list = PopupState.help ∧
      toggleUserList PopupState.list = PopupState.none ∧
      toggleUserList PopupState.none = PopupState.list ∧
      toggleUserList PopupState.help = PopupState.list) := by
  refine ⟨fun user tm => rfl, fun user j tm => rfl, fun tm => ⟨rfl, rfl, rfl⟩, ?_⟩
  refine ⟨by simp [toggleHelp], by simp [toggleHelp], by simp [toggleHelp],
    by simp [toggleUserList], by simp [toggleUserList], by simp [toggleUserList]⟩

/-- Concrete application state used to exhibit the renderer's mutations:
an expired display timer and a visible Banned popup. -/
def appCex : ChatApp Nat :=
  { msg_area := StatefulArea.new,
    messages := StatefulList.default,
    users := [],
    current_popup := PopupState.banned "alice",
    popup_display_timer := { treshold_time := 5, counter := 0, start := true },
    room_id := "room" }

/-- C8 counterexample: the claim says the frame renderer mutates no
component state and in particular does not write the width, but rendering
appCex at frame width 80 changes both the popup state and the edit
buffer's width. -/
theorem C8_renderer_purity_counterexample :
    (renderUpdate appCex 80).current_popup = PopupState.none ∧
    appCex.current_popup = PopupState.banned "alice" ∧
    (renderUpdate appCex 80).msg_area.width = 80 ∧
    appCex.msg_area.width = 0 :=
  ⟨rfl, rfl, rfl, rfl⟩

/-- C8 amended: the renderer's only state effects are writing the frame
width into the edit buffer (done by the renderer itself, not the caller)
and resetting an expired time-bound popup; the buffer text and height, the
message list, the users, and the timer are untouched. -/
theorem C8_renderer_purity_amended {μ : Type} (app : ChatApp μ) (w : Nat) :
    (renderUpdate app w).msg_area.width = w ∧
    (renderUpdate app w).msg_area.textarea = app.msg_area.textarea ∧
    (renderUpdate app w).msg_area.height = app.msg_area.height ∧
    (renderUpdate app w).messages = app.messages ∧
    (renderUpdate app w).users = app.users ∧
    (renderUpdate app w).popup_display_timer = app.popup_display_timer ∧
    (renderUpdate app w).room_id = app.room_id ∧
    (renderUpdate app w).current_popup =
      renderPopupUpdate app.current_popup app.popup_display_timer :=
  ⟨rfl, rfl, rfl, rfl, rfl, rfl, rfl, rfl⟩

/-- C9: processing a character input with the configured width still at
its initial value zero (any width below the margin 6) reaches the checked
u16 subtraction width - 6 and underflows, modelled as none; the reflow
check does not no-op or clamp before the subtraction. -/
theorem C9_width_underflow :
    processInputs [Input.char 'a'] StatefulArea.new = none := rfl

/-! StatefulList lemmas (claims C5 and C6). -/

theorem next_items {α : Type} (s : StatefulList α) : s.next.items = s.items := by
  simp only [StatefulList.next]
  split <;> rfl

theorem previous_items {α : Type} (s : StatefulList α) : s.previous.items = s.items := by
  simp only [StatefulList.previous]
  split <;> rfl

theorem next_selected_some {α : Type} (s : StatefulList α) (i : Nat)
    (h : s.state.selected = some i) (hi : i < s.items.length) :
    s.next.state.selected = some (min (i + 1) (s.items.length - 1)) := by
  have hne : s.items.length ≠ 0 := by omega
  simp only [StatefulList.next]
  rw [if_pos hne, h]
  simp only [ListState.select]
  congr 1
  split <;> omega

theorem previous_selected_some {α : Type} (s : StatefulList α) (i : Nat)
    (h : s.state.selected = some i) (hne : ¬ s.items.isEmpty) :
    s.previous.state.selected = some (i - 1) := by
  simp only [StatefulList.previous]
  rw [if_pos hne, h]
  simp only [ListState.select]
  congr 1
  split <;> omega

theorem isEmpty_false_of_length {α : Type} (l : List α) (h : l.length ≠ 0) :
    ¬ l.isEmpty := by
  cases l with
  | nil => simp at h
  | cons a tl => simp

theorem next_iter_selected {α : Type} (k : Nat) :
    ∀ (s : StatefulList α) (i : Nat), s.state.selected = some i → i < s.items.length →
      (StatefulList.next^[k] s).state.selected = some (min (i + k) (s.items.length - 1)) ∧
      (StatefulList.next^[k] s).items = s.items := by
  induction k with
  | zero =>
    intro s i h hi
    refine ⟨?_, rfl⟩
    simp only [Function.iterate_zero, id_eq, h]
    congr 1
    omega
  | succ k ih =>
    intro s i h hi
    rw [Function.iterate_succ_apply]
    have h1 := next_selected_some s i h hi
    have hitems := next_items s
    have hlt : min (i + 1) (s.items.length - 1) < s.next.items.length := by
      rw [hitems]; omega
    obtain ⟨ha, hb⟩ := ih s.next (min (i + 1) (s.items.length - 1)) h1 hlt
    refine ⟨?_, by rw [hb, hitems]⟩
    rw [ha, hitems]
    congr 1
    omega

theorem previous_iter_selected {α : Type} (k : Nat) :
    ∀ (s : StatefulList α) (i : Nat), s.state.selected = some i → i < s.items.length →
      (StatefulList.previous^[k] s).state.selected = some (i - k) ∧
      (StatefulList.previous^[k] s).items = s.items := by
  induction k with
  | zero =>
    intro s i h hi
    exact ⟨by simpa using h, rfl⟩
  | succ k ih =>
    intro s i h hi
    rw [Function.iterate_succ_apply]
    have hne : ¬ s.items.isEmpty := isEmpty_false_of_length s.items (by omega)
    have h1 := previous_selected_some s i h hne
    have hitems := previous_items s
    have hlt : i - 1 < s.previous.items.length := by rw [hitems]; omega
    obtain ⟨ha, hb⟩ := ih s.previous (i - 1) h1 hlt
    refine ⟨?_, by rw [hb, hitems]⟩
    rw [ha]
    congr 1
    omega

/-- C5: on an empty list next and previous change nothing; on a non-empty
list next with no selection selects index 0; from a valid selection i,
k repeated next calls land on min (i+k) (len-1), saturating at len-1, and
k repeated previous calls land on i-k, saturating at 0. -/
theorem C5_selectable_list_navigation {α : Type} :
    (∀ (s : StatefulList α), s.items = [] → s.next = s ∧ s.previous = s) ∧
    (∀ (s : StatefulList α), s.items ≠ [] → s.state.selected = none →
      s.next.state.selected = some 0) ∧
    (∀ (s : StatefulList α) (i k : Nat), s.state.selected = some i →
      i < s.items.length →
      (StatefulList.next^[k] s).state.selected = some (min (i + k) (s.items.length - 1))) ∧
    (∀ (s : StatefulList α) (i k : Nat), s.state.selected = some i →
      i < s.items.length →
      (StatefulList.previous^[k] s).state.selected = some (i - k)) := by
  refine ⟨?_, ?_, ?_, ?_⟩
  · intro s h
    constructor
    · unfold StatefulList.next
      rw [if_neg (by simp [h])]
    · unfold StatefulList.previous
      rw [if_neg (by simp [h])]
  · intro s h hsel
    have hne : s.items.length ≠ 0 := by
      simpa [List.length_eq_zero] using h
    simp only [StatefulList.next]
    rw [if_pos hne, hsel]
    rfl
  · intro s i k h hi
    exact (next_iter_selected k s i h hi).1
  · intro s i k h hi
    exact (previous_iter_selected k s i h hi).1

/-- Concrete lists used by the witnesses of the navigation claims. -/
def listEmptyW : StatefulList Nat :=
  { state := { selected := none }, items := [], is_highlighted := false }

/-- Concrete three-element list with the first row selected. -/
def listThreeW : StatefulList Nat :=
  { state := { selected := some 0 }, items := [10, 20, 30], is_highlighted := false }

/-- C5 witness: the navigation facts applied to an empty list and to a
three-element list with selection 0 (five next calls saturate at 2, two
previous calls saturate at 0). -/
theorem C5_selectable_list_navigation_witness :
    (listEmptyW.next = listEmptyW ∧ listEmptyW.previous = listEmptyW) ∧
    (StatefulList.next^[5] listThreeW).state.selected =
      some (min (0 + 5) (listThreeW.items.length - 1)) ∧
    (StatefulList.previous^[2] listThreeW).state.selected = some (0 - 2) :=
  ⟨C5_selectable_list_navigation.1 listEmptyW rfl,
   C5_selectable_list_navigation.2.2.1 listThreeW 0 5 rfl (by decide),
   C5_selectable_list_navigation.2.2.2 listThreeW 0 2 rfl (by decide)⟩

/-- C6 counterexample: on the one-element list, select_last selects index
1; the claim requires the following next() to bring or keep the index
inside the valid range, but next() keeps it at 1, outside the range. -/
theorem C6_selection_invariant_counterexample :
    ((StatefulList.select_last
        { state := { selected := none }, items := [0], is_highlighted := false }).next
      : StatefulList Nat).state.selected = some 1 ∧
    ¬ (1 < ([0] : List Nat).length) := by
  constructor
  · rfl
  · decide

/-- C6 amended: next and previous keep an in-range selection in range (and
a missing selection becomes index 0), select_last selects len, one past
the end; after select_last, previous() brings the index back to len-1,
inside the range, but next() keeps it at len, outside the range. -/
theorem C6_selection_invariant_amended {α : Type} :
    (∀ (s : StatefulList α) (i : Nat), s.state.selected = some i →
      i < s.items.length →
      (s.next.state.selected = some (min (i + 1) (s.items.length - 1)) ∧
        min (i + 1) (s.items.length - 1) < s.items.length ∧
        s.previous.state.selected = some (i - 1) ∧ i - 1 < s.items.length)) ∧
    (∀ (s : StatefulList α), s.select_last.state.selected = some s.items.length) ∧
    (∀ (s : StatefulList α), s.items ≠ [] →
      (s.select_last.next.state.selected = some s.items.length ∧
        s.select_last.previous.state.selected = some (s.items.length - 1) ∧
        s.items.length - 1 < s.items.length ∧ ¬ s.items.length < s.items.length)) := by
  refine ⟨?_, ?_, ?_⟩
  · intro s i h hi
    have hne : s.items.length ≠ 0 := by omega
    refine ⟨next_selected_some s i h hi, by omega,
      previous_selected_some s i h (isEmpty_false_of_length s.items hne), by omega⟩
  · intro s
    rfl
  · intro s h
    have hlen : s.items.length ≠ 0 := by
      simpa [List.length_eq_zero] using h
    have hsel : s.select_last.state.selected = some s.items.length := rfl
    have hit : s.select_last.items = s.items := rfl
    constructor
    · simp only [StatefulList.next]
      rw [hit, if_pos hlen, hsel]
      simp only [ListState.select]
      congr 1
      rw [if_pos (by omega)]
    · refine ⟨?_, by omega, by omega⟩
      simp only [StatefulList.previous]
      rw [hit, if_pos (isEmpty_false_of_length s.items hlen), hsel]
      simp only [ListState.select]
      congr 1
      rw [if_neg (by omega)]

/-- C6 witness: the amended selection facts applied to the three-element
list with selection 0 and to the singleton list after select_last. -/
theorem C6_selection_invariant_witness :
    (listThreeW.next.state.selected = some (min (0 + 1) (listThreeW.items.length - 1)) ∧
      min (0 + 1) (listThreeW.items.length - 1) < listThreeW.items.length ∧
      listThreeW.previous.state.selected = some (0 - 1) ∧
      0 - 1 < listThreeW.items.length) ∧
    (listThreeW.select_last.next.state.selected = some listThreeW.items.length ∧
      listThreeW.select_last.previous.state.selected = some (listThreeW.items.length - 1) ∧
      listThreeW.items.length - 1 < listThreeW.items.length ∧
      ¬ listThreeW.items.length < listThreeW.items.length) :=
  ⟨C6_selection_invariant_amended.1 listThreeW 0 rfl (by decide),
   C6_selection_invariant_amended.2.2 listThreeW (by decide)⟩

/-! Height lemmas for the edit buffer (claim C4). -/

theorem mlw_height (s s' : StatefulArea)
    (h : s.move_last_word_to_new_line = some s') :
    s'.height = s.height ∨
      (s'.height = s.height + 1 ∧ s.height ≤ StatefulArea.MAX_AREA_HEIGHT) := by
  simp only [StatefulArea.move_last_word_to_new_line] at h
  by_cases h1 : s.width < 6
  · rw [if_pos h1] at h
    exact absurd h (by simp)
  · rw [if_neg h1] at h
    by_cases h2 : (s.textarea.lines.getD s.textarea.cursor.fst []).length ≥ s.width - 6
    · rw [if_pos h2] at h
      have he := Option.some.inj h
      by_cases h3 : s.height ≤ StatefulArea.MAX_AREA_HEIGHT ∧
          ¬ (s.textarea.lines.getD s.textarea.cursor.fst []).getLast? = some ' '
      · have hh : s'.height = s.height + 1 := by
          rw [← he]
          exact if_pos h3
        exact Or.inr ⟨hh, h3.1⟩
      · have hh : s'.height = s.height := by
          rw [← he]
          exact if_neg h3
        exact Or.inl hh
    · rw [if_neg h2] at h
      left
      rw [← Option.some.inj h]

theorem on_input_height (s : StatefulArea) (i : Input) (s' : StatefulArea)
    (h : s.on_input_update i = some s') :
    s'.height = s.height ∨
      (s'.height = s.height + 1 ∧ s.height ≤ StatefulArea.MAX_AREA_HEIGHT) := by
  simp only [StatefulArea.on_input_update] at h
  by_cases hm : (s.textarea.input_without_shortcuts i).snd
  · rw [if_pos hm] at h
    have h2 := mlw_height _ _ h
    exact h2
  · rw [if_neg hm] at h
    left
    rw [← Option.some.inj h]

theorem processInputs_height (is : List Input) :
    ∀ (s s' : StatefulArea), s.height ≤ StatefulArea.MAX_AREA_HEIGHT + 1 →
      processInputs is s = some s' →
      s'.height ≤ StatefulArea.MAX_AREA_HEIGHT + 1 := by
  induction is with
  | nil =>
    intro s s' hh h
    have h' : s = s' := Option.some.inj h
    rw [← h']
    exact hh
  | cons i tl ih =>
    intro s s' hh h
    cases hm : s.on_input_update i with
    | none =>
      have h0 : processInputs (i :: tl) s = (s.on_input_update i).bind (processInputs tl) := rfl
      rw [h0, hm] at h
      exact absurd h (by simp)
    | some s1 =>
      have h' : processInputs tl s1 = some s' := by
        have h0 : processInputs (i :: tl) s = (s.on_input_update i).bind (processInputs tl) := rfl
        rw [h0, hm] at h
        exact h
      have hs1 : s1.height ≤ StatefulArea.MAX_AREA_HEIGHT + 1 := by
        rcases on_input_height s i s1 hm with h1 | ⟨h1, h2⟩ <;> omega
      exact ih s1 s' hs1 h'

theorem mlw_height_exact (s s' : StatefulArea)
    (h : s.move_last_word_to_new_line = some s') :
    s'.height =
      if (s.textarea.lines.getD s.textarea.cursor.fst []).length ≥ s.width - 6 ∧
          s.height ≤ StatefulArea.MAX_AREA_HEIGHT ∧
          ¬ (s.textarea.lines.getD s.textarea.cursor.fst []).getLast? = some ' '
        then s.height + 1 else s.height := by
  simp only [StatefulArea.move_last_word_to_new_line] at h
  by_cases h1 : s.width < 6
  · rw [if_pos h1] at h
    exact absurd h (by simp)
  · rw [if_neg h1] at h
    by_cases h2 : (s.textarea.lines.getD s.textarea.cursor.fst []).length ≥ s.width - 6
    · rw [if_pos h2] at h
      have he := Option.some.inj h
      by_cases h3 : s.height ≤ StatefulArea.MAX_AREA_HEIGHT ∧
          ¬ (s.textarea.lines.getD s.textarea.cursor.fst []).getLast? = some ' '
      · rw [if_pos ⟨h2, h3.1, h3.2⟩, ← he]
        exact if_pos h3
      · rw [if_neg (by tauto), ← he]
        exact if_neg h3
    · rw [if_neg h2] at h
      rw [if_neg (by tauto), ← Option.some.inj h]

theorem on_input_height_exact (s : StatefulArea) (i : Input) (s' : StatefulArea)
    (h : s.on_input_update i = some s') :
    s'.height =
      if (s.textarea.input_without_shortcuts i).snd = true ∧
          ((s.textarea.input_without_shortcuts i).fst.lines.getD
            (s.textarea.input_without_shortcuts i).fst.cursor.fst []).length ≥ s.width - 6 ∧
          s.height ≤ StatefulArea.MAX_AREA_HEIGHT ∧
          ¬ ((s.textarea.input_without_shortcuts i).fst.lines.getD
            (s.textarea.input_without_shortcuts i).fst.cursor.fst []).getLast? = some ' '
        then s.height + 1 else s.height := by
  simp only [StatefulArea.on_input_update] at h
  by_cases hm : (s.textarea.input_without_shortcuts i).snd
  · rw [if_pos hm] at h
    have hx := mlw_height_exact _ _ h
    rw [hx]
    simp [hm]
  · rw [if_neg hm] at h
    rw [← Option.some.inj h]
    rw [if_neg (by simp [hm])]

/-- C4 amended: a processed input increments the reported height by one
exactly when the reflow fired (the input modified the buffer and the
current line — as the reflow reads it, after the edit — reached width - 6
characters), that line did not end in a space character, and the height is
at most MAX_AREA_HEIGHT = 20 (the code's guard is height <= MAX, not
height < MAX); otherwise the height is unchanged.  Consequently the
height can reach 21, one more than the constant, and any input sequence
keeps it at most 21 (in particular starting from the initial height 0). -/
theorem C4_height_invariant_amended :
    (∀ (s : StatefulArea) (i : Input) (s' : StatefulArea),
      s.on_input_update i = some s' →
      s'.height =
        if (s.textarea.input_without_shortcuts i).snd = true ∧
            ((s.textarea.input_without_shortcuts i).fst.lines.getD
              (s.textarea.input_without_shortcuts i).fst.cursor.fst []).length ≥
              s.width - 6 ∧
            s.height ≤ StatefulArea.MAX_AREA_HEIGHT ∧
            ¬ ((s.textarea.input_without_shortcuts i).fst.lines.getD
              (s.textarea.input_without_shortcuts i).fst.cursor.fst []).getLast? = some ' '
          then s.height + 1 else s.height) ∧
    (∀ (is : List Input) (s s' : StatefulArea),
      s.height ≤ StatefulArea.MAX_AREA_HEIGHT + 1 →
      processInputs is s = some s' →
      s'.height ≤ StatefulArea.MAX_AREA_HEIGHT + 1) :=
  ⟨on_input_height_exact, fun is s s' hh h => processInputs_height is s s' hh h⟩

/-- C4 counterexample: at width 7 every typed character reflows, so typing
21 characters from the fresh buffer drives the reported height to 21,
exceeding the claimed maximum of 20. -/
theorem C4_height_invariant_counterexample :
    (processInputs (List.replicate 21 (Input.char 'a'))
        { StatefulArea.new with width := 7 }).map StatefulArea.height = some 21 ∧
    ¬ (21 ≤ StatefulArea.MAX_AREA_HEIGHT) := by
  constructor
  · rfl
  · decide

/-- Fresh edit buffer with the width set to 7 (reflow threshold 1). -/
def stC4 : StatefulArea := { StatefulArea.new with width := 7 }

/-- Buffer state after typing one character into stC4: the reflow fired,
moved the character to a new line and grew the height to 1. -/
def stC4a : StatefulArea :=
  { textarea := ⟨[[], ['a']], (1, 1)⟩, height := 1, width := 7 }

/-- C4 witness: the exact increment condition and the height bound applied
to the concrete one-character run at width 7. -/
theorem C4_height_invariant_witness :
    (stC4a.height =
      if (stC4.textarea.input_without_shortcuts (Input.char 'a')).snd = true ∧
          ((stC4.textarea.input_without_shortcuts (Input.char 'a')).fst.lines.getD
            (stC4.textarea.input_without_shortcuts (Input.char 'a')).fst.cursor.fst
            []).length ≥ stC4.width - 6 ∧
          stC4.height ≤ StatefulArea.MAX_AREA_HEIGHT ∧
          ¬ ((stC4.textarea.input_without_shortcuts (Input.char 'a')).fst.lines.getD
            (stC4.textarea.input_without_shortcuts (Input.char 'a')).fst.cursor.fst
            []).getLast? = some ' '
        then stC4.height + 1 else stC4.height) ∧
    stC4a.height ≤ StatefulArea.MAX_AREA_HEIGHT + 1 :=
  ⟨C4_height_invariant_amended.1 stC4 (Input.char 'a') stC4a rfl,
   C4_height_invariant_amended.2 [Input.char 'a'] stC4 stC4a (by decide) rfl⟩

/-! Reflow lemmas for the edit buffer (claim C1). -/

theorem not_ws_of_kind_word (c : Char) (h : charKind c = CharKind.word) :
    isWS c = false := by
  by_cases hw : isWS c
  · simp [charKind, hw] at h
  · simpa using hw

theorem getD_set_self {α : Type} :
    ∀ (L : List α) (r : Nat) (v d : α), r < L.length → (L.set r v).getD r d = v := by
  intro L
  induction L with
  | nil => intro r v d h; simp at h
  | cons a tl ih =>
    intro r v d h
    cases r with
    | zero => rfl
    | succ r => simpa using ih r v d (by simpa using h)

theorem findWordGo_words (u : List Char) :
    (∀ c ∈ u, charKind c = CharKind.word) →
    ∀ (rest : List Char) (curCol : Nat),
      findWordGo CharKind.word (u ++ rest) curCol =
        findWordGo CharKind.word rest (curCol - u.length) := by
  induction u with
  | nil => intro _ rest curCol; simp
  | cons c tl ih =>
    intro hu rest curCol
    have hc : charKind c = CharKind.word := hu c (by simp)
    simp only [List.cons_append, findWordGo, hc]
    rw [if_neg (by simp)]
    simp only [List.append_eq]
    rw [ih (fun d hd => hu d (List.mem_cons_of_mem c hd)) rest (curCol - 1)]
    congr 1
    simp only [List.length_cons]
    omega

theorem fwsb_cons (line : List Char) (col : Nat) (c0 : Char) (tl : List Char)
    (h : (line.take col).reverse = c0 :: tl) :
    findWordStartBackward line col = findWordGo (charKind c0) tl (col - 1) := by
  unfold findWordStartBackward
  rw [h]

theorem reverse_cons_of_ne_nil (w : List Char) (hw : w ≠ []) :
    ∃ c0 tl, w.reverse = c0 :: tl ∧ c0 ∈ w ∧ w.length = tl.length + 1 := by
  cases hrev : w.reverse with
  | nil =>
    exact absurd (by simpa using congrArg List.reverse hrev) hw
  | cons a b =>
    refine ⟨a, b, rfl, ?_, ?_⟩
    · have : a ∈ w.reverse := by rw [hrev]; simp
      simpa using this
    · have := congrArg List.length hrev
      simpa using this

theorem reverse_cons_of_getLast (p : List Char) (c : Char) (h : p.getLast? = some c) :
    ∃ q, p.reverse = c :: q := by
  have h1 : p.reverse.head? = some c := by rw [List.head?_reverse]; exact h
  cases hrev : p.reverse with
  | nil => rw [hrev] at h1; simp at h1
  | cons a b =>
    rw [hrev] at h1
    simp only [List.head?_cons, Option.some.injEq] at h1
    exact ⟨b, by rw [h1]⟩

theorem fwsb_trailing_run (p w : List Char) (hw : w ≠ [])
    (hkind : ∀ c ∈ w, charKind c = CharKind.word)
    (hp : p = [] ∨ ∃ c, p.getLast? = some c ∧ isWS c = true) :
    findWordStartBackward (p ++ w) (p ++ w).length = some p.length := by
  obtain ⟨c0, tl, hw0, hc0w, hwlen⟩ := reverse_cons_of_ne_nil w hw
  have hc0 : charKind c0 = CharKind.word := hkind c0 hc0w
  have htl : ∀ c ∈ tl, charKind c = CharKind.word := by
    intro c hc
    apply hkind
    have : c ∈ w.reverse := by rw [hw0]; simp [hc]
    simpa using this
  have htake : ((p ++ w).take (p ++ w).length).reverse = c0 :: (tl ++ p.reverse) := by
    rw [List.take_length, List.reverse_append, hw0]
    simp
  rw [fwsb_cons _ _ _ _ htake, hc0]
  rw [findWordGo_words tl htl p.reverse ((p ++ w).length - 1)]
  have hlen : (p ++ w).length - 1 - tl.length = p.length := by
    simp only [List.length_append]
    omega
  rw [hlen]
  rcases hp with hp | ⟨c, hlast, hws⟩
  · subst hp
    simp [findWordGo]
  · obtain ⟨q, hq⟩ := reverse_cons_of_getLast p c hlast
    rw [hq]
    have hkc : charKind c = CharKind.space := by simp [charKind, hws]
    simp [findWordGo, hkc]

theorem hasCap_true (p w : List Char) (hw : w ≠ [])
    (hnw : ∀ c ∈ w, isWS c = false) :
    hasCap (p ++ w).reverse = true := by
  obtain ⟨c0, tl, hw0, hc0w, _⟩ := reverse_cons_of_ne_nil w hw
  simp only [hasCap, List.any_eq_true]
  refine ⟨c0, ?_, by simp [hnw c0 hc0w]⟩
  simp [hc0w]

theorem capStart_zero (p w : List Char) (hw : w ≠ [])
    (hnw : ∀ c ∈ w, isWS c = false) :
    capStart (p ++ w).reverse = 0 := by
  obtain ⟨c0, tl, hw0, hc0w, _⟩ := reverse_cons_of_ne_nil w hw
  have hrev : (p ++ w).reverse = c0 :: (tl ++ p.reverse) := by
    rw [List.reverse_append, hw0]
    simp
  rw [hrev]
  simp [capStart, List.takeWhile_cons, hnw c0 hc0w]

theorem capMatch_run (p w : List Char) (hw : w ≠ [])
    (hnw : ∀ c ∈ w, isWS c = false)
    (hp : p = [] ∨ ∃ c, p.getLast? = some c ∧ isWS c = true) :
    capMatch (p ++ w).reverse = w.reverse := by
  obtain ⟨c0, tl, hw0, hc0w, _⟩ := reverse_cons_of_ne_nil w hw
  have hrev : (p ++ w).reverse = w.reverse ++ p.reverse := by
    rw [List.reverse_append]
  have hdrop : ((p ++ w).reverse).dropWhile isWS = w.reverse ++ p.reverse := by
    rw [hrev, hw0]
    simp [List.dropWhile_cons, hnw c0 hc0w]
  simp only [capMatch, hdrop]
  rw [takeWhile_append_of_all _ w.reverse p.reverse
    (by intro c hc; simp [hnw c (by simpa using hc)])]
  rcases hp with hp | ⟨c, hlast, hws⟩
  · subst hp
    simp
  · obtain ⟨q, hq⟩ := reverse_cons_of_getLast p c hlast
    rw [hq]
    simp [List.takeWhile_cons, hws]

theorem capStart_pos (p : List Char) (c : Char)
    (hlast : p.getLast? = some c) (hws : isWS c = true) :
    capStart p.reverse ≠ 0 := by
  obtain ⟨q, hq⟩ := reverse_cons_of_getLast p c hlast
  rw [hq]
  simp [capStart, List.takeWhile_cons, hws]

theorem hasCap_of_mem (p : List Char) (d : Char) (hd : d ∈ p) (hnw : isWS d = false) :
    hasCap p.reverse = true := by
  simp only [hasCap, List.any_eq_true]
  exact ⟨d, by simp [hd], by simp [hnw]⟩

theorem delete_word_at_line_end (L : List (List Char)) (r : Nat) (p w : List Char)
    (hline : L.getD r [] = p ++ w)
    (hw : w ≠ []) (hkind : ∀ c ∈ w, charKind c = CharKind.word)
    (hp : p = [] ∨ ∃ c, p.getLast? = some c ∧ isWS c = true) :
    TextArea.delete_word ⟨L, (r, (p ++ w).length)⟩ = ⟨L.set r p, (r, p.length)⟩ := by
  simp only [TextArea.delete_word, hline]
  rw [fwsb_trailing_run p w hw hkind hp]
  simp [List.take_left, List.drop_length]

theorem insert_newline_after_word (A B : List (List Char)) (p : List Char) :
    TextArea.insert_newline ⟨A ++ p :: B, (A.length, p.length)⟩ =
      ⟨A ++ p :: [] :: B, (A.length + 1, 0)⟩ := by
  simp only [TextArea.insert_newline]
  rw [getD_append_self A p B []]
  rw [List.take_left A (p :: B)]
  rw [show A.length + 1 = A.length + 1 from rfl, List.drop_append 1]
  simp [List.take_length, List.drop_length]

theorem insert_str_on_new_line (A B : List (List Char)) (p w : List Char) :
    TextArea.insert_str ⟨A ++ p :: [] :: B, (A.length + 1, 0)⟩ w =
      ⟨A ++ p :: w :: B, (A.length + 1, w.length)⟩ := by
  simp only [TextArea.insert_str]
  have hassoc : A ++ p :: [] :: B = (A ++ [p]) ++ [] :: B := by simp
  have hlen : (A ++ [p]).length = A.length + 1 := by simp
  rw [hassoc, ← hlen]
  rw [getD_append_self (A ++ [p]) [] B []]
  rw [set_append_self (A ++ [p]) [] B]
  simp

theorem delete_char_at_line_end (L : List (List Char)) (r : Nat) (p : List Char)
    (hline : L.getD r [] = p) (hp : p ≠ []) :
    TextArea.delete_char ⟨L, (r, p.length)⟩ =
      (⟨L.set r p.dropLast, (r, p.length - 1)⟩, true) := by
  simp only [TextArea.delete_char, hline]
  rw [if_neg (by simpa [List.length_eq_zero] using hp)]
  rw [List.drop_length]
  rw [← List.dropLast_eq_take]
  simp

/-- C1 amended: when a reflow fires with the cursor at the end of the
current line, the branch is chosen by whether the line ends in whitespace,
not by whether the trailing run spans the whole line.  If the line ends in
a non-whitespace run (of word characters), that trailing word — even one
spanning the entire line — is removed, a new line is started, and the word
is re-inserted at its start, preserving the total characters; if instead
the line ends in whitespace (and holds some non-whitespace), exactly one
trailing character is deleted. -/
theorem C1_reflow_amended (s : StatefulArea) (p w : List Char)
    (hw6 : 6 ≤ s.width)
    (hr : s.textarea.cursor.fst < s.textarea.lines.length)
    (hline : s.textarea.lines.getD s.textarea.cursor.fst [] = p ++ w)
    (hcur : s.textarea.cursor.snd = (p ++ w).length)
    (hlen : s.width - 6 ≤ (p ++ w).length) :
    (w ≠ [] → (∀ c ∈ w, charKind c = CharKind.word) →
      (p = [] ∨ ∃ c, p.getLast? = some c ∧ isWS c = true) →
      ((s.move_last_word_to_new_line).map (fun a => a.textarea) =
        some ⟨s.textarea.lines.take s.textarea.cursor.fst ++ p :: w ::
              s.textarea.lines.drop (s.textarea.cursor.fst + 1),
              (s.textarea.cursor.fst + 1, w.length)⟩ ∧
        (s.move_last_word_to_new_line).map (fun a => totalChars a.textarea) =
          some (totalChars s.textarea))) ∧
    (w = [] → p ≠ [] → (∃ c, p.getLast? = some c ∧ isWS c = true) →
      (∃ d ∈ p, isWS d = false) →
      (s.move_last_word_to_new_line).map (fun a => a.textarea) =
        some ⟨s.textarea.lines.set s.textarea.cursor.fst p.dropLast,
              (s.textarea.cursor.fst, p.length - 1)⟩) := by
  constructor
  · intro hwne hkind hp
    have hnw : ∀ c ∈ w, isWS c = false := fun c hc => not_ws_of_kind_word c (hkind c hc)
    have hcap := hasCap_true p w hwne hnw
    have hst := capStart_zero p w hwne hnw
    have hcm := capMatch_run p w hwne hnw hp
    have hta : s.textarea =
        ⟨s.textarea.lines, (s.textarea.cursor.fst, (p ++ w).length)⟩ := by
      rw [← hcur]
    have hA : (s.textarea.lines.take s.textarea.cursor.fst).length =
        s.textarea.cursor.fst :=
      List.length_take_of_le (le_of_lt hr)
    have hset : s.textarea.lines.set s.textarea.cursor.fst p =
        s.textarea.lines.take s.textarea.cursor.fst ++
          p :: s.textarea.lines.drop (s.textarea.cursor.fst + 1) := by
      rw [List.set_eq_take_append_cons_drop, if_pos hr]
    have hLdecomp : s.textarea.lines =
        s.textarea.lines.take s.textarea.cursor.fst ++
          (p ++ w) :: s.textarea.lines.drop (s.textarea.cursor.fst + 1) := by
      conv_lhs => rw [← List.take_append_drop s.textarea.cursor.fst s.textarea.lines]
      congr 1
      rw [List.drop_eq_getElem_cons hr]
      congr 1
      rw [← List.getD_eq_getElem s.textarea.lines [] hr]
      exact hline
    have hdw : s.textarea.delete_word =
        ⟨s.textarea.lines.set s.textarea.cursor.fst p,
          (s.textarea.cursor.fst, p.length)⟩ := by
      conv_lhs => rw [hta]
      exact delete_word_at_line_end _ _ p w hline hwne hkind hp
    have hin := insert_newline_after_word
      (s.textarea.lines.take s.textarea.cursor.fst)
      (s.textarea.lines.drop (s.textarea.cursor.fst + 1)) p
    rw [hA] at hin
    have his := insert_str_on_new_line
      (s.textarea.lines.take s.textarea.cursor.fst)
      (s.textarea.lines.drop (s.textarea.cursor.fst + 1)) p w
    rw [hA] at his
    have hcomp : ((s.textarea.delete_word).insert_newline).insert_str w =
        ⟨s.textarea.lines.take s.textarea.cursor.fst ++
            p :: w :: s.textarea.lines.drop (s.textarea.cursor.fst + 1),
          (s.textarea.cursor.fst + 1, w.length)⟩ := by
      rw [hdw, hset, hin, his]
    have hmlwfull : s.move_last_word_to_new_line =
        some { textarea := ⟨s.textarea.lines.take s.textarea.cursor.fst ++
                              p :: w :: s.textarea.lines.drop (s.textarea.cursor.fst + 1),
                              (s.textarea.cursor.fst + 1, w.length)⟩,
               height := if s.height ≤ StatefulArea.MAX_AREA_HEIGHT ∧
                           ¬ (p ++ w).getLast? = some ' ' then s.height + 1 else s.height,
               width := s.width } := by
      simp only [StatefulArea.move_last_word_to_new_line, hline]
      rw [if_neg (by omega), if_pos hlen, if_pos hcap, if_pos hst, hcm]
      rw [List.reverse_reverse, hcomp]
    constructor
    · rw [hmlwfull]
      simp [Option.map_some']
    · rw [hmlwfull]
      simp only [Option.map_some', Option.some.injEq]
      simp only [totalChars]
      conv_rhs => rw [hLdecomp]
      simp [List.sum_append]
      omega
  · intro hwe hpne hlast hsome
    subst hwe
    have hline' : s.textarea.lines.getD s.textarea.cursor.fst [] = p := by
      simpa using hline
    have hcur' : s.textarea.cursor.snd = p.length := by simpa using hcur
    have hlen' : s.width - 6 ≤ p.length := by simpa using hlen
    obtain ⟨c, hlastc, hws⟩ := hlast
    obtain ⟨d, hd, hdnw⟩ := hsome
    have hcap := hasCap_of_mem p d hd hdnw
    have hst := capStart_pos p c hlastc hws
    have hta : s.textarea =
        ⟨s.textarea.lines, (s.textarea.cursor.fst, p.length)⟩ := by
      rw [← hcur']
    have hdc : s.textarea.delete_char =
        (⟨s.textarea.lines.set s.textarea.cursor.fst p.dropLast,
          (s.textarea.cursor.fst, p.length - 1)⟩, true) := by
      conv_lhs => rw [hta]
      exact delete_char_at_line_end _ _ p hline' hpne
    have hmlwfull : s.move_last_word_to_new_line =
        some { textarea := ⟨s.textarea.lines.set s.textarea.cursor.fst p.dropLast,
                              (s.textarea.cursor.fst, p.length - 1)⟩,
               height := if s.height ≤ StatefulArea.MAX_AREA_HEIGHT ∧
                           ¬ p.getLast? = some ' ' then s.height + 1 else s.height,
               width := s.width } := by
      simp only [StatefulArea.move_last_word_to_new_line, hline']
      rw [if_neg (by omega), if_pos hlen', if_pos hcap, if_neg hst]
      rw [hdc]
    rw [hmlwfull]
    simp [Option.map_some']

/-- Concrete buffer whose single line is one unbroken six-character token,
at width 10 (reflow threshold 4), cursor at the end of the line. -/
def stC1 : StatefulArea :=
  { textarea := ⟨[toL "abcdef"], (0, 6)⟩, height := 0, width := 10 }

/-- C1 counterexample: on a line holding the single unbreakable token
abcdef, the claim prescribes deleting exactly one trailing character
(leaving abcde, five characters); the code instead moves the whole token
to a new line, keeping all six characters. -/
theorem C1_reflow_counterexample :
    ((stC1.move_last_word_to_new_line).map (fun a => a.textarea.lines) =
      some [[], toL "abcdef"]) ∧
    ¬ ((stC1.move_last_word_to_new_line).map (fun a => totalChars a.textarea) =
      some 5) := by
  constructor
  · rfl
  · decide

/-- Concrete buffer ab cdef at width 12, cursor at the end: the
word-wrap branch of the reflow. -/
def stC1w : StatefulArea :=
  { textarea := ⟨[toL "ab cdef"], (0, 7)⟩, height := 0, width := 12 }

/-- Concrete buffer ab cde (with a trailing space) at width 12, cursor at
the end: the delete-one-character branch of the reflow. -/
def stC1s : StatefulArea :=
  { textarea := ⟨[toL "ab cde "], (0, 7)⟩, height := 3, width := 12 }

/-- C1 witness: the amended reflow behaviour at the two concrete buffers,
one for each branch. -/
theorem C1_reflow_amended_witness :
    (((stC1w.move_last_word_to_new_line).map (fun a => a.textarea) =
        some ⟨stC1w.textarea.lines.take stC1w.textarea.cursor.fst ++ toL "ab " :: toL "cdef" ::
              stC1w.textarea.lines.drop (stC1w.textarea.cursor.fst + 1),
              (stC1w.textarea.cursor.fst + 1, (toL "cdef").length)⟩ ∧
      (stC1w.move_last_word_to_new_line).map (fun a => totalChars a.textarea) =
        some (totalChars stC1w.textarea))) ∧
    (stC1s.move_last_word_to_new_line).map (fun a => a.textarea) =
      some ⟨stC1s.textarea.lines.set stC1s.textarea.cursor.fst (toL "ab cde ").dropLast,
            (stC1s.textarea.cursor.fst, (toL "ab cde ").length - 1)⟩ :=
  ⟨(C1_reflow_amended stC1w (toL "ab ") (toL "cdef") (by decide) (by decide) (by decide)
      (by decide) (by decide)).1 (by decide) (by decide) (Or.inr ⟨' ', by decide, by decide⟩),
   (C1_reflow_amended stC1s (toL "ab cde ") [] (by decide) (by decide) (by decide)
      (by decide) (by decide)).2 rfl (by decide) ⟨' ', by decide, by decide⟩
      ⟨'a', by decide, by decide⟩⟩

/-! Clearing lemmas for the edit buffer (claim C2). -/

theorem getD_append_at {α : Type} (a : List α) (rest : List α) (k : Nat) (d : α) :
    (a ++ rest).getD (a.length + k) d = rest.getD k d := by
  induction a with
  | nil => simp
  | cons x tl ih => simpa [Nat.succ_add] using ih

theorem set_append_at {α : Type} (a rest : List α) (k : Nat) (v : α) :
    (a ++ rest).set (a.length + k) v = a ++ rest.set k v := by
  induction a with
  | nil => simp
  | cons x tl ih => simp [Nat.succ_add, ih]

theorem concat_of_ne_nil {α : Type} (l : List α) (h : l ≠ []) : ∃ M u, l = M ++ [u] := by
  rcases List.eq_nil_or_concat l with h1 | ⟨M, u, h1⟩
  · exact absurd h1 h
  · exact ⟨M, u, by simpa [List.concat_eq_append] using h1⟩

theorem clearStep_single (l : List Char) (c : Nat) :
    clearStep ⟨[l], (0, c)⟩ = ⟨[[]], (0, 0)⟩ := by
  by_cases hl : l = []
  · subst hl
    rfl
  · simp [clearStep, TextArea.move_cursor_end, TextArea.delete_line_by_head,
      TextArea.delete_newline, List.length_eq_zero, hl, List.drop_length]

theorem clearStep_two (M : List (List Char)) (t u : List Char) (c : Nat) (hu : u ≠ []) :
    clearStep ⟨M ++ [t, u], (M.length + 1, c)⟩ = ⟨M ++ [t], (M.length, t.length)⟩ := by
  have h1 : TextArea.move_cursor_end ⟨M ++ [t, u], (M.length + 1, c)⟩ =
      ⟨M ++ [t, u], (M.length + 1, u.length)⟩ := by
    simp only [TextArea.move_cursor_end, getD_append_at]
    rfl
  have h2 : TextArea.delete_line_by_head ⟨M ++ [t, u], (M.length + 1, u.length)⟩ =
      ⟨M ++ [t, []], (M.length + 1, 0)⟩ := by
    simp only [TextArea.delete_line_by_head]
    rw [if_neg (by simpa [List.length_eq_zero] using hu)]
    simp only [getD_append_at, set_append_at]
    simp [List.drop_length]
  have h3 : TextArea.delete_newline ⟨M ++ [t, []], (M.length + 1, 0)⟩ =
      ⟨M ++ [t], (M.length, t.length)⟩ := by
    simp only [TextArea.delete_newline]
    rw [if_neg (by omega)]
    simp only [Nat.add_sub_cancel]
    have hprev : (M ++ [t, []]).getD M.length ([] : List Char) = t := by
      simpa using getD_append_at M [t, []] 0 []
    have hcurl : (M ++ [t, []]).getD (M.length + 1) ([] : List Char) = [] := by
      simpa using getD_append_at M [t, []] 1 []
    have htake : (M ++ [t, []]).take M.length = M := List.take_left M [t, []]
    have hdrop : (M ++ [t, []]).drop (M.length + 1 + 1) = [] := by
      have : M.length + 1 + 1 = M.length + 2 := by omega
      rw [this, List.drop_append 2]
      rfl
    rw [hprev, hcurl, htake, hdrop]
    simp
  show TextArea.delete_newline (TextArea.delete_line_by_head
    (TextArea.move_cursor_end ⟨M ++ [t, u], (M.length + 1, c)⟩)) = _
  rw [h1, h2, h3]

theorem clearStep_lastEmpty_one (t : List Char) (c : Nat) :
    clearStep ⟨[t, []], (1, c)⟩ = ⟨[t], (0, t.length)⟩ := by
  simp [clearStep, TextArea.move_cursor_end, TextArea.delete_line_by_head,
    TextArea.delete_newline]

theorem clearStep_lastEmpty_many (M : List (List Char)) (q t : List Char) (c : Nat) :
    clearStep ⟨M ++ [q, t, []], (M.length + 2, c)⟩ =
      ⟨M ++ [q ++ t], (M.length, q.length)⟩ := by
  have h1 : TextArea.move_cursor_end ⟨M ++ [q, t, []], (M.length + 2, c)⟩ =
      ⟨M ++ [q, t, []], (M.length + 2, 0)⟩ := by
    simp only [TextArea.move_cursor_end]
    have : (M ++ [q, t, []]).getD (M.length + 2) ([] : List Char) = [] := by
      simpa using getD_append_at M [q, t, []] 2 []
    rw [this]
    rfl
  have h2 : TextArea.delete_line_by_head ⟨M ++ [q, t, []], (M.length + 2, 0)⟩ =
      ⟨M ++ [q, t], (M.length + 1, t.length)⟩ := by
    simp only [TextArea.delete_line_by_head, if_true, TextArea.delete_newline]
    rw [if_neg (by omega)]
    have harith : M.length + 2 - 1 = M.length + 1 := by omega
    rw [harith]
    have hprev : (M ++ [q, t, []]).getD (M.length + 1) ([] : List Char) = t := by
      simpa using getD_append_at M [q, t, []] 1 []
    have hcurl : (M ++ [q, t, []]).getD (M.length + 2) ([] : List Char) = [] := by
      simpa using getD_append_at M [q, t, []] 2 []
    have htake : (M ++ [q, t, []]).take (M.length + 1) = M ++ [q] := by
      rw [List.take_append 1]
      rfl
    have hdrop : (M ++ [q, t, []]).drop (M.length + 2 + 1) = [] := by
      have : M.length + 2 + 1 = M.length + 3 := by omega
      rw [this, List.drop_append 3]
      rfl
    rw [hprev, hcurl, htake, hdrop]
    simp
  have h3 : TextArea.delete_newline ⟨M ++ [q, t], (M.length + 1, t.length)⟩ =
      ⟨M ++ [q ++ t], (M.length, q.length)⟩ := by
    simp only [TextArea.delete_newline]
    rw [if_neg (by omega)]
    simp only [Nat.add_sub_cancel]
    have hprev : (M ++ [q, t]).getD M.length ([] : List Char) = q := by
      simpa using getD_append_at M [q, t] 0 []
    have hcurl : (M ++ [q, t]).getD (M.length + 1) ([] : List Char) = t := by
      simpa using getD_append_at M [q, t] 1 []
    have htake : (M ++ [q, t]).take M.length = M := List.take_left M [q, t]
    have hdrop : (M ++ [q, t]).drop (M.length + 1 + 1) = [] := by
      have : M.length + 1 + 1 = M.length + 2 := by omega
      rw [this, List.drop_append 2]
      rfl
    rw [hprev, hcurl, htake, hdrop]
  show TextArea.delete_newline (TextArea.delete_line_by_head
    (TextArea.move_cursor_end ⟨M ++ [q, t, []], (M.length + 2, c)⟩)) = _
  rw [h1, h2, h3]

theorem clearStep_progress (L : List (List Char)) (c : Nat) (h2 : 2 ≤ L.length) :
    ∃ L' c', clearStep ⟨L, (L.length - 1, c)⟩ = ⟨L', (L'.length - 1, c')⟩ ∧
      L' ≠ [] ∧ L'.length < L.length := by
  obtain ⟨L₁, u, hL1⟩ := concat_of_ne_nil L (by intro h; rw [h] at h2; simp at h2)
  have hL1ne : L₁ ≠ [] := by
    intro h
    rw [h] at hL1
    rw [hL1] at h2
    simp at h2
  obtain ⟨M, t, hM⟩ := concat_of_ne_nil L₁ hL1ne
  have hLM : L = M ++ [t, u] := by
    rw [hL1, hM]
    simp
  have hlen : L.length = M.length + 2 := by
    rw [hLM]
    simp
  have hidx : L.length - 1 = M.length + 1 := by omega
  by_cases hu : u = []
  · subst hu
    rcases List.eq_nil_or_concat M with hMnil | ⟨M₀, q, hM0⟩
    · subst hMnil
      refine ⟨[t], t.length, ?_, by simp, by rw [hLM]; simp⟩
      rw [hidx, hLM]
      simpa using clearStep_lastEmpty_one t c
    · have hM0' : M = M₀ ++ [q] := by simpa [List.concat_eq_append] using hM0
      refine ⟨M₀ ++ [q ++ t], q.length, ?_, by simp, ?_⟩
      · rw [hidx, hLM, hM0']
        have : (M₀ ++ [q]).length + 1 = M₀.length + 2 := by simp
        rw [this]
        have hlist : (M₀ ++ [q]) ++ [t, []] = M₀ ++ [q, t, []] := by simp
        rw [hlist]
        have hlen' : (M₀ ++ [q ++ t]).length - 1 = M₀.length := by simp
        rw [hlen']
        exact clearStep_lastEmpty_many M₀ q t c
      · rw [hLM, hM0']
        simp
  · refine ⟨M ++ [t], t.length, ?_, by simp, by rw [hLM]; simp⟩
    rw [hidx, hLM]
    have hlen' : (M ++ [t]).length - 1 = M.length := by simp
    rw [hlen']
    exact clearStep_two M t u c hu

theorem iterate_cleared (n : Nat) :
    clearStep^[n] ⟨[[]], (0, 0)⟩ = ⟨[[]], (0, 0)⟩ := by
  induction n with
  | zero => rfl
  | succ n ih =>
    rw [Function.iterate_succ_apply]
    rw [show clearStep ⟨[[]], (0, 0)⟩ = ⟨[[]], (0, 0)⟩ from clearStep_single [] 0]
    exact ih

theorem clear_drain (k : Nat) :
    ∀ (L : List (List Char)) (c : Nat), L ≠ [] → L.length ≤ k →
      clearStep^[k] ⟨L, (L.length - 1, c)⟩ = ⟨[[]], (0, 0)⟩ := by
  induction k using Nat.strong_induction_on with
  | _ k ih =>
    intro L c hne hlen
    cases k with
    | zero =>
      have : L.length = 0 := by omega
      exact absurd (List.length_eq_zero.mp this) hne
    | succ k =>
      rw [Function.iterate_succ_apply]
      by_cases h1 : L.length = 1
      · obtain ⟨l, rfl⟩ : ∃ l, L = [l] := by
          cases L with
          | nil => simp at h1
          | cons a tl =>
            cases tl with
            | nil => exact ⟨a, rfl⟩
            | cons b tl2 => simp at h1
        rw [show ([l] : List (List Char)).length - 1 = 0 from rfl]
        rw [clearStep_single l c]
        exact iterate_cleared k
      · have h2 : 2 ≤ L.length := by
          have : L.length ≠ 0 := fun h => hne (List.length_eq_zero.mp h)
          omega
        obtain ⟨L', c', hstep, hne', hlt⟩ := clearStep_progress L c h2
        rw [hstep]
        exact ih k (by omega) L' c' hne' (by omega)

/-- Join rule as the amended claim words it: a newline is appended to each
line that is nonempty and whose content differs from the content of the
last line; the pieces are then concatenated.  (This refines the original
claim's plain newline-join wording down to what the code computes.) -/
def joinAsCode (ls : List (List Char)) : List Char :=
  (ls.map (fun l => if ¬ l.isEmpty ∧ ¬ l = ls.getLast?.getD [] then l ++ ['\n'] else l)).flatten

/-- C2 amended: get_text returns the joinAsCode rendering of the buffer
exactly when its trim is nonempty (note the code omits the newline after
any line whose content equals the last line's content, not just after the
last line itself), and the accompanying clear fully drains the buffer and
resets the cursor provided the cursor sits on the last line; on an earlier
line the clearing loop stalls at row zero and content below the cursor
survives. -/
theorem C2_get_text_amended (s : StatefulArea)
    (hne : s.textarea.lines ≠ [])
    (hcur : s.textarea.cursor.fst = s.textarea.lines.length - 1) :
    (s.get_text).snd.textarea = ⟨[[]], (0, 0)⟩ ∧
    (s.get_text).fst = (if (strTrim (joinAsCode s.textarea.lines)).isEmpty then none
      else some (joinAsCode s.textarea.lines)) := by
  constructor
  · have hta : s.textarea =
        ⟨s.textarea.lines, (s.textarea.lines.length - 1, s.textarea.cursor.snd)⟩ := by
      rw [← hcur]
    show (s.clear_buffer).textarea = _
    simp only [StatefulArea.clear_buffer]
    conv_lhs => rw [hta]
    exact clear_drain s.textarea.lines.length s.textarea.lines s.textarea.cursor.snd
      hne (le_refl _)
  · rfl

/-- Concrete buffer whose first line equals the last line: lines a, b, a
with the cursor on the last line. -/
def stC2 : StatefulArea :=
  { textarea := ⟨[toL "a", toL "b", toL "a"], (2, 1)⟩, height := 0, width := 30 }

/-- Concrete two-line buffer with the cursor on the first line. -/
def stC2up : StatefulArea :=
  { textarea := ⟨[toL "ab", toL "cd"], (0, 0)⟩, height := 0, width := 30 }

/-- C2 counterexample: on the buffer a, b, a the claim's newline-join
would return the five characters a NL b NL a, but get_text returns ab NL a
(the first line, equal in content to the last, gets no newline); and with
the cursor on the first line of the buffer ab, cd the claimed
unconditional drain fails — the second line survives. -/
theorem C2_get_text_counterexample :
    (stC2.get_text).fst = some (toL "ab\na") ∧
    toL "ab\na" ≠ toL "a\nb\na" ∧
    (stC2up.get_text).snd.textarea.lines = [[], toL "cd"] ∧
    ([[], toL "cd"] : List (List Char)) ≠ [[]] := by
  refine ⟨rfl, by decide, rfl, by decide⟩

/-- C2 witness: the amended get_text contract at the concrete buffer a, b,
a with the cursor on the last line. -/
theorem C2_get_text_amended_witness :
    (stC2.get_text).snd.textarea = ⟨[[]], (0, 0)⟩ ∧
    (stC2.get_text).fst = (if (strTrim (joinAsCode stC2.textarea.lines)).isEmpty then none
      else some (joinAsCode stC2.textarea.lines)) :=
  C2_get_text_amended stC2 (by decide) (by decide)
